import Mathlib

/-!
Shallow embedding of the storage lifecycle manager of the cosmic-uploads
backend.  The embedded code is `src/server.js` (constants, the in-memory
`fileMetadata` map, the two reapers `cleanExpiredFiles` and
`manageStorageCapacity`, and the upload / metadata-lookup / download /
preview route handlers), plus the embed route `GET /file/:fileId` of
`src/backend/server.js`.

Modelling conventions:
* The JS `Map` `fileMetadata` is an association list `List (String × FileRecord)`
  in insertion order; `Map.get` / `Map.set` / `Map.delete` become `mapGet` /
  `mapSet` / `mapDelete`.  A JS `Map` never holds two entries with the same
  key, so theorems may assume `(index.map Prod.fst).Nodup` where needed.
* Timestamps (`Date.now()` values) are `Nat` milliseconds.  The expiry test
  `now - metadata.uploadTime > TTL` is `TTL < now - m.uploadTime` over `Nat`:
  when `now ≤ uploadTime` both the JS comparison (negative number `> TTL`)
  and the truncated `Nat` comparison (`0 > TTL`) are false, and otherwise
  the two subtractions agree, so the branch conditions coincide.
* Disk effects are abstracted by oracles: `unlinkOk : String → Bool` tells
  whether `fs.unlink` on a given path succeeds (its failure is what the JS
  `try`/`catch` blocks observe), and `diskHas : String → Bool` tells whether
  `fs.access` on a path succeeds.  Where the JS fires an unlink without
  letting its outcome influence control flow (`fs.unlink(..).catch(..)` in
  the lazy-expiry branches), the oracle is omitted because no observable
  state in the model depends on it.
* `res.json`/`res.send` responses become inductive result types; ISO date
  strings in responses are modelled by the underlying millisecond timestamp.
-/

namespace CosmicUploads

/-- Metadata record stored in the `fileMetadata` map for one upload
(`src/server.js` lines 115-122). -/
structure FileRecord where
  originalName : String
  size : Nat
  mimetype : String
  uploadTime : Nat
  filePath : String
  filename : String
deriving DecidableEq

/-- The in-memory index: the `fileMetadata` JS `Map`, as an association list
in insertion order. -/
abbrev Index := List (String × FileRecord)

/-- 24 hours in milliseconds: the TTL constant `24 * 60 * 60 * 1000` used in
every expiry check. -/
def TTL : Nat := 24 * 60 * 60 * 1000

/-- The 5GB aggregate capacity cap `5 * 1024 * 1024 * 1024` of
`manageStorageCapacity`. -/
def MAX_STORAGE : Nat := 5 * 1024 * 1024 * 1024

/-- Model of `fileMetadata.get(fileId)`: the value of the first entry with
that key (a JS `Map` holds at most one entry per key). -/
def mapGet : Index → String → Option FileRecord
  | [], _ => none
  | p :: rest, fileId => if p.1 = fileId then some p.2 else mapGet rest fileId

/-- Model of `fileMetadata.delete(fileId)`: removes the entry with that key
(on a well-formed map there is at most one; removing every occurrence keeps
the model total on arbitrary lists). -/
def mapDelete : Index → String → Index
  | [], _ => []
  | p :: rest, fileId =>
    if p.1 = fileId then mapDelete rest fileId else p :: mapDelete rest fileId

/-- Model of `fileMetadata.set(fileId, metadata)`: overwrites the entry in
place if the key is present, otherwise appends, as a JS `Map` does. -/
def mapSet : Index → String → FileRecord → Index
  | [], fileId, m => [(fileId, m)]
  | p :: rest, fileId, m =>
    if p.1 = fileId then (fileId, m) :: rest else p :: mapSet rest fileId m

/-- The accumulation loop `for (const file of files) totalSize += file.size`
of `manageStorageCapacity`. -/
def sumSizes : List (String × FileRecord) → Nat
  | [] => 0
  | f :: rest => f.2.size + sumSizes rest

/-- The comparator `(a, b) => a.uploadTime - b.uploadTime` of the
capacity reaper's sort, as the "oldest first" non-strict order it induces. -/
def byUploadTime (a b : String × FileRecord) : Prop :=
  a.2.uploadTime ≤ b.2.uploadTime

instance : DecidableRel byUploadTime :=
  fun a b => Nat.decLe a.2.uploadTime b.2.uploadTime

instance : IsTotal (String × FileRecord) byUploadTime :=
  ⟨fun a b => Nat.le_total a.2.uploadTime b.2.uploadTime⟩

instance : IsTrans (String × FileRecord) byUploadTime :=
  ⟨fun _ _ _ hab hbc => Nat.le_trans hab hbc⟩

/-- The snapshot `Array.from(fileMetadata.entries()).map(..).sort(..)` in
`manageStorageCapacity`: the index entries sorted oldest-first.  JS `sort`
is a stable sort with respect to the comparator; `List.insertionSort` is a
stable sort for the induced order, so it is a faithful model of it. -/
def sortByUploadTime (l : Index) : Index :=
  l.insertionSort byUploadTime

/-- The `while (totalSize > MAX_STORAGE && files.length > 0)` loop of
`manageStorageCapacity`: shift the oldest candidate off the working list;
if its blob unlink succeeds, delete its index entry and subtract its size
from the running total; if the unlink throws, the `catch` only logs, so the
index and the total are left unchanged (the candidate stays in the map). -/
def evictLoop (unlinkOk : String → Bool) :
    List (String × FileRecord) → Nat → Index → Index
  | [], _, index => index
  | f :: rest, totalSize, index =>
    if MAX_STORAGE < totalSize then
      if unlinkOk f.2.filePath then
        evictLoop unlinkOk rest (totalSize - f.2.size) (mapDelete index f.1)
      else
        evictLoop unlinkOk rest totalSize index
    else index

/-- Model of `manageStorageCapacity` (`src/server.js` lines 75-100):
snapshot and sort the entries oldest first, total up their sizes, then run
the eviction loop. -/
def manageStorageCapacity (unlinkOk : String → Bool) (index : Index) : Index :=
  let files := sortByUploadTime index
  evictLoop unlinkOk files (sumSizes files) index

/-- Number of iterations the `while` loop of `evictLoop` performs, on the
same arguments and with the same branch structure. -/
def evictSteps (unlinkOk : String → Bool) :
    List (String × FileRecord) → Nat → Nat
  | [], _ => 0
  | f :: rest, totalSize =>
    if MAX_STORAGE < totalSize then
      (if unlinkOk f.2.filePath then
        evictSteps unlinkOk rest (totalSize - f.2.size)
      else
        evictSteps unlinkOk rest totalSize) + 1
    else 0

/-- Body of the deletion loop of `cleanExpiredFiles` (`src/server.js`
lines 62-71): look the identifier up again, unlink its blob and, only if the
unlink succeeded, delete the index entry (`fs.unlink` comes before
`fileMetadata.delete` inside the `try`, so a throwing unlink leaves the
entry in the map; a vanished entry makes `metadata.filePath` throw, which
the `catch` also turns into leaving the map unchanged). -/
def cleanStep (unlinkOk : String → Bool) (idx : Index) (fileId : String) : Index :=
  match mapGet idx fileId with
  | none => idx
  | some m => if unlinkOk m.filePath then mapDelete idx fileId else idx

/-- Model of `cleanExpiredFiles` (`src/server.js` lines 52-72): collect the
expired identifiers from a snapshot of the map, then run the deletion loop
over them. -/
def cleanExpiredFiles (now : Nat) (unlinkOk : String → Bool) (index : Index) : Index :=
  let expiredFiles :=
    (index.filter (fun p => decide (TTL < now - p.2.uploadTime))).map Prod.fst
  expiredFiles.foldl (cleanStep unlinkOk) index

/-- The JSON body served by `GET /api/file/:fileId` on success
(`src/server.js` lines 156-163); `expiresAt` is the millisecond value behind
the ISO string `new Date(metadata.uploadTime + 24*60*60*1000)`. -/
structure FileInfoResponse where
  fileId : String
  originalName : String
  size : Nat
  mimetype : String
  uploadTime : Nat
  expiresAt : Nat
deriving DecidableEq

/-- Outcome of `GET /api/file/:fileId`: 404 "File not found",
404 "File has expired", or the 200 JSON body. -/
inductive LookupResult where
  | notFound
  | expired
  | ok (resp : FileInfoResponse)
deriving DecidableEq

/-- Model of the metadata route `GET /api/file/:fileId` (`src/server.js`
lines 141-164).  In the expired branch the handler deletes the index entry
and then fires `fs.unlink(..).catch(..)` whose outcome affects nothing
observable here. -/
def lookupFile (now : Nat) (index : Index) (fileId : String) :
    LookupResult × Index :=
  match mapGet index fileId with
  | none => (.notFound, index)
  | some m =>
    if TTL < now - m.uploadTime then
      (.expired, mapDelete index fileId)
    else
      (.ok ⟨fileId, m.originalName, m.size, m.mimetype, m.uploadTime,
            m.uploadTime + TTL⟩, index)

/-- Outcome of `GET /api/download/:fileId`: 404 "File not found",
404 "File has expired", 404 "File not found on disk", or streaming the blob
with the record's name and mime type. -/
inductive DownloadResult where
  | notFound
  | expired
  | notOnDisk
  | ok (m : FileRecord)
deriving DecidableEq

/-- Model of the download route `GET /api/download/:fileId` (`src/server.js`
lines 167-198): not-found check, expiry check (delete entry, then awaited
but `.catch`-guarded unlink), then `fs.access` on the stored path — if the
blob is gone the stale entry is deleted and a distinct 404 is returned. -/
def downloadFile (now : Nat) (diskHas : String → Bool) (index : Index)
    (fileId : String) : DownloadResult × Index :=
  match mapGet index fileId with
  | none => (.notFound, index)
  | some m =>
    if TTL < now - m.uploadTime then
      (.expired, mapDelete index fileId)
    else if diskHas m.filePath then
      (.ok m, index)
    else
      (.notOnDisk, mapDelete index fileId)

/-- Model of the JavaScript primitive `String.prototype.startsWith`: the
characters of `before` are an initial segment of the characters of `s`.
(Stated over the character lists so that it computes by kernel reduction.) -/
def jsStartsWith (s before : String) : Bool :=
  before.data.isPrefixOf s.data

/-- The allow-list `previewableTypes` of the preview route. -/
def previewableTypes : List String :=
  ["image/", "text/", "application/json", "application/pdf"]

/-- The check `previewableTypes.some(type => metadata.mimetype.startsWith(type))`. -/
def isPreviewable (mimetype : String) : Bool :=
  previewableTypes.any (fun t => jsStartsWith mimetype t)

/-- Outcome of `GET /api/preview/:fileId`: the three 404/400 rejections, the
500 "Preview failed" produced when `res.sendFile` fails on a vanished blob,
or the blob served inline. -/
inductive PreviewResult where
  | notFound
  | expired
  | notPreviewable
  | sendFailed
  | ok (m : FileRecord)
deriving DecidableEq

/-- Model of the preview route `GET /api/preview/:fileId` (`src/server.js`
lines 201-236): not-found check, expiry check, mime allow-list check, then
`res.sendFile` directly — there is no `fs.access` here, so a missing blob
surfaces only as a send error (500 "Preview failed") and no branch deletes
the index entry in that case. -/
def previewFile (now : Nat) (diskHas : String → Bool) (index : Index)
    (fileId : String) : PreviewResult × Index :=
  match mapGet index fileId with
  | none => (.notFound, index)
  | some m =>
    if TTL < now - m.uploadTime then
      (.expired, mapDelete index fileId)
    else if !(isPreviewable m.mimetype) then
      (.notPreviewable, index)
    else if diskHas m.filePath then
      (.ok m, index)
    else
      (.sendFailed, index)

/-- The success JSON of `POST /api/upload`: the identifier plus the
millisecond value behind `new Date(Date.now() + 24*60*60*1000)` — note the
fresh `Date.now()` call at response time. -/
structure UploadResponse where
  fileId : String
  expiresAt : Nat
deriving DecidableEq

/-- Model of the upload route `POST /api/upload` (`src/server.js`
lines 108-138) after multer has stored the blob.  `tMeta` is the `Date.now()`
captured into `metadata.uploadTime` (line 119); `tResp` is the second
`Date.now()` evaluated for the response's `expiresAt` (line 132) after the
awaited `manageStorageCapacity()` call, so `tMeta ≤ tResp` with equality only
when the clock has not advanced in between. -/
def uploadHandler (tMeta tResp : Nat) (unlinkOk : String → Bool)
    (index : Index) (fileId originalName : String) (size : Nat)
    (mimetype filePath filename : String) : Index × UploadResponse :=
  let metadata : FileRecord := ⟨originalName, size, mimetype, tMeta, filePath, filename⟩
  let index1 := mapSet index fileId metadata
  let index2 := manageStorageCapacity unlinkOk index1
  (index2, ⟨fileId, tResp + TTL⟩)

/-- Outcome of the embed route `GET /file/:fileId`: 404 "File not found", or
the rendered OG/redirect page, which interpolates the record's
`originalName` and `size` into its title and description and links a preview
image when the mime type starts with "image/". -/
inductive EmbedResult where
  | notFound
  | page (m : FileRecord) (hasImage : Bool)
deriving DecidableEq

/-- Model of the embed/share route `GET /file/:fileId`
(`src/backend/server.js` lines 137-166): it reads `fileMetadata.get(fileId)`
and renders the page for any present record.  The handler performs no expiry
check and no deletion — it never consults the clock at all, which is why
this model takes no `now` argument. -/
def embedPage (index : Index) (fileId : String) : EmbedResult × Index :=
  match mapGet index fileId with
  | none => (.notFound, index)
  | some m => (.page m (jsStartsWith m.mimetype "image/"), index)

/-! Helper lemmas about the map model. -/

/-- Deleting a key makes lookups of that key miss. -/
theorem mapGet_mapDelete_self (index : Index) (fileId : String) :
    mapGet (mapDelete index fileId) fileId = none := by
  induction index with
  | nil => rfl
  | cons p rest ih =>
    by_cases h : p.1 = fileId
    · simpa [mapDelete, h] using ih
    · simpa [mapGet, mapDelete, h] using ih

/-- Deleting one key leaves lookups of other keys unchanged. -/
theorem mapGet_mapDelete_ne (index : Index) (fileId k : String) (hne : k ≠ fileId) :
    mapGet (mapDelete index fileId) k = mapGet index k := by
  induction index with
  | nil => rfl
  | cons p rest ih =>
    by_cases h : p.1 = fileId
    · have hpk : ¬ p.1 = k := fun hk => hne (hk ▸ h)
      simpa [mapGet, mapDelete, h, hpk, Ne.symm hne] using ih
    · by_cases hk : p.1 = k
      · simp [mapGet, mapDelete, h, hk, hne]
      · simpa [mapGet, mapDelete, h, hk, hne] using ih

/-- A lookup that succeeds after a deletion also succeeded before it. -/
theorem mapGet_mapDelete_some {index : Index} {fileId k : String} {m : FileRecord}
    (h : mapGet (mapDelete index fileId) k = some m) : mapGet index k = some m := by
  by_cases hk : k = fileId
  · rw [hk, mapGet_mapDelete_self] at h; exact absurd h (by simp)
  · rwa [mapGet_mapDelete_ne index fileId k hk] at h

/-- Looking up a key right after setting it yields the stored value. -/
theorem mapGet_mapSet_self (index : Index) (fileId : String) (m : FileRecord) :
    mapGet (mapSet index fileId m) fileId = some m := by
  induction index with
  | nil => simp [mapSet, mapGet]
  | cons p rest ih =>
    by_cases h : p.1 = fileId
    · simp [mapSet, mapGet, h]
    · simpa [mapSet, mapGet, h] using ih

/-- `mapDelete` is the filter that drops the entries with the given key. -/
theorem mapDelete_eq_filter (index : Index) (fileId : String) :
    mapDelete index fileId = index.filter (fun p => !(p.1 == fileId)) := by
  induction index with
  | nil => rfl
  | cons p rest ih =>
    by_cases h : p.1 = fileId
    · simp [mapDelete, List.filter_cons, h, ih]
    · simp [mapDelete, List.filter_cons, h, ih]

/-- On a map with no duplicate keys, membership determines the lookup. -/
theorem mapGet_eq_of_mem {index : Index} {k : String} {m : FileRecord}
    (hnd : (index.map Prod.fst).Nodup) (hmem : (k, m) ∈ index) :
    mapGet index k = some m := by
  induction index with
  | nil => cases hmem
  | cons p rest ih =>
    rcases List.mem_cons.mp hmem with heq | htail
    · simp [mapGet, ← heq]
    · have hk : k ∈ rest.map Prod.fst :=
        List.mem_map.mpr ⟨(k, m), htail, rfl⟩
      have hne : ¬ p.1 = k := by
        intro h
        exact (List.nodup_cons.mp hnd).1 (h ▸ hk)
      simp only [mapGet, hne, if_false]
      exact ih (List.nodup_cons.mp hnd).2 htail

/-- The accumulated total is the sum of the mapped sizes. -/
theorem sumSizes_eq_map_sum (l : List (String × FileRecord)) :
    sumSizes l = (l.map (fun p => p.2.size)).sum := by
  induction l with
  | nil => rfl
  | cons f rest ih => simp [sumSizes, ih]

/-- The size total is invariant under permutation of the entries. -/
theorem sumSizes_perm {l₁ l₂ : List (String × FileRecord)} (h : l₁.Perm l₂) :
    sumSizes l₁ = sumSizes l₂ := by
  rw [sumSizes_eq_map_sum, sumSizes_eq_map_sum]
  exact (h.map (fun p => p.2.size)).sum_eq

/-- The capacity reaper's sorted snapshot is a permutation of the index. -/
theorem sortByUploadTime_perm (l : Index) : (sortByUploadTime l).Perm l :=
  List.perm_insertionSort byUploadTime l

/-- The capacity reaper's snapshot is sorted oldest-first. -/
theorem sortByUploadTime_sorted (l : Index) :
    (sortByUploadTime l).Sorted byUploadTime :=
  List.sorted_insertionSort byUploadTime l

/-! Helper lemmas about the capacity-eviction loop. -/

/-- When the running total is already within the cap, the eviction loop
leaves the index untouched. -/
theorem evictLoop_stop (unlinkOk : String → Bool)
    (files : List (String × FileRecord)) (t : Nat) (idx : Index)
    (h : ¬ MAX_STORAGE < t) : evictLoop unlinkOk files t idx = idx := by
  cases files with
  | nil => rfl
  | cons f rest => simp [evictLoop, h]

/-- The eviction loop only ever deletes entries: any entry present after it
was present before it, with the same record. -/
theorem evictLoop_get_some {unlinkOk : String → Bool}
    {files : List (String × FileRecord)} {t : Nat} {idx : Index}
    {k : String} {m : FileRecord}
    (h : mapGet (evictLoop unlinkOk files t idx) k = some m) :
    mapGet idx k = some m := by
  induction files generalizing t idx with
  | nil => exact h
  | cons f rest ih =>
    by_cases hlt : MAX_STORAGE < t
    · by_cases hok : unlinkOk f.2.filePath
      · simp only [evictLoop, hlt, if_true, hok] at h
        exact mapGet_mapDelete_some (ih h)
      · simp only [evictLoop, hlt, if_true, hok, if_false] at h
        exact ih h
    · rwa [evictLoop_stop unlinkOk (f :: rest) t idx hlt] at h

/-- An entry whose every blob unlink fails survives the eviction loop: the
loop drops such a candidate from its working list without touching the map. -/
theorem evictLoop_preserved {unlinkOk : String → Bool}
    {files : List (String × FileRecord)} {t : Nat} {idx : Index}
    {k : String} {m : FileRecord}
    (hget : mapGet idx k = some m)
    (hall : ∀ r : FileRecord, (k, r) ∈ files → unlinkOk r.filePath = false) :
    mapGet (evictLoop unlinkOk files t idx) k = some m := by
  induction files generalizing t idx with
  | nil => exact hget
  | cons f rest ih =>
    by_cases hlt : MAX_STORAGE < t
    · by_cases hok : unlinkOk f.2.filePath
      · have hne : f.1 ≠ k := by
          intro h
          have : (k, f.2) ∈ f :: rest := by
            rw [← h]; exact List.mem_cons_self f rest
          rw [hall f.2 this] at hok
          exact Bool.false_ne_true hok
        simp only [evictLoop, hlt, if_true, hok]
        exact ih (by rwa [mapGet_mapDelete_ne idx f.1 k (Ne.symm hne)])
          (fun r hr => hall r (List.mem_cons_of_mem f hr))
      · simp only [evictLoop, hlt, if_true, hok, if_false]
        exact ih hget (fun r hr => hall r (List.mem_cons_of_mem f hr))
    · rwa [evictLoop_stop unlinkOk (f :: rest) t idx hlt]

/-- Deleting the head's key of a duplicate-free permutation leaves a
permutation of the tail. -/
theorem mapDelete_perm_head {idx : Index} {f : String × FileRecord}
    {rest : List (String × FileRecord)}
    (hperm : idx.Perm (f :: rest)) (hfr : f.1 ∉ rest.map Prod.fst) :
    (mapDelete idx f.1).Perm rest := by
  rw [mapDelete_eq_filter]
  have h1 := hperm.filter (fun p => !(p.1 == f.1))
  have h2 : (f :: rest).filter (fun p => !(p.1 == f.1)) = rest := by
    rw [List.filter_cons]
    simp only [beq_self_eq_true, Bool.not_true, if_false]
    exact List.filter_eq_self.mpr (fun p hp => by
      simp only [Bool.not_eq_true', beq_eq_false_iff_ne, ne_eq]
      intro h
      exact hfr (h ▸ List.mem_map.mpr ⟨p, hp, rfl⟩))
  rwa [h2] at h1

/-- When every blob unlink succeeds, the eviction loop run on a working list
that is a duplicate-free permutation of the index, with the running total
equal to the list's size sum, ends within the cap or empties the index. -/
theorem evictLoop_allok (files : List (String × FileRecord)) (idx : Index) (t : Nat)
    (hperm : files.Perm idx) (hnd : (files.map Prod.fst).Nodup)
    (ht : t = sumSizes files) :
    sumSizes (evictLoop (fun _ => true) files t idx) ≤ MAX_STORAGE ∨
    evictLoop (fun _ => true) files t idx = [] := by
  induction files generalizing t idx with
  | nil =>
    right
    simpa [evictLoop] using (hperm.symm.eq_nil)
  | cons f rest ih =>
    by_cases hlt : MAX_STORAGE < t
    · simp only [evictLoop, hlt, if_true]
      have hnd' := List.nodup_cons.mp
        (show (f.1 :: rest.map Prod.fst).Nodup from hnd)
      exact ih (mapDelete idx f.1) (t - f.2.size)
        (mapDelete_perm_head hperm.symm hnd'.1).symm
        hnd'.2
        (by rw [ht]; simp [sumSizes, Nat.add_sub_cancel_left])
    · left
      rw [evictLoop_stop _ _ _ _ hlt]
      rw [← sumSizes_perm hperm, ← ht]
      exact Nat.not_lt.mp hlt

/-! Helper lemmas about the reapers as wholes. -/

/-- The capacity reaper only ever deletes entries: an entry present after a
pass was present before it, with the same record. -/
theorem manage_get_some {unlinkOk : String → Bool} {idx : Index}
    {k : String} {m : FileRecord}
    (h : mapGet (manageStorageCapacity unlinkOk idx) k = some m) :
    mapGet idx k = some m := by
  simp only [manageStorageCapacity] at h
  exact evictLoop_get_some h

/-- On a duplicate-free index, an entry whose blob unlink fails survives a
whole capacity-reaper pass. -/
theorem manage_preserved {unlinkOk : String → Bool} {idx : Index}
    {k : String} {m : FileRecord}
    (hnd : (idx.map Prod.fst).Nodup)
    (hget : mapGet idx k = some m)
    (hfail : unlinkOk m.filePath = false) :
    mapGet (manageStorageCapacity unlinkOk idx) k = some m := by
  simp only [manageStorageCapacity]
  apply evictLoop_preserved hget
  intro r hr
  have hrIdx : (k, r) ∈ idx := (sortByUploadTime_perm idx).mem_iff.mp hr
  have hrg : mapGet idx k = some r := mapGet_eq_of_mem hnd hrIdx
  rw [hget] at hrg
  cases hrg
  exact hfail

/-- An entry whose blob unlink fails survives the deletion loop of the
expiry reaper, whatever identifiers that loop processes. -/
theorem cleanFold_preserved (unlinkOk : String → Bool) (fids : List String)
    (idx : Index) (k : String) (m : FileRecord)
    (hget : mapGet idx k = some m) (hfail : unlinkOk m.filePath = false) :
    mapGet (fids.foldl (cleanStep unlinkOk) idx) k = some m := by
  induction fids generalizing idx with
  | nil => exact hget
  | cons fid rest ih =>
    rw [List.foldl_cons]
    apply ih
    by_cases hk : fid = k
    · subst hk
      simp only [cleanStep, hget, hfail, Bool.false_eq_true, if_false]
    · unfold cleanStep
      cases hg : mapGet idx fid with
      | none => exact hget
      | some mFound =>
        by_cases hok : unlinkOk mFound.filePath
        · simp only [hok, if_true]
          rwa [mapGet_mapDelete_ne idx fid k (Ne.symm hk)]
        · simpa [hok] using hget

/-- An entry whose blob unlink fails survives a whole expiry-reaper pass. -/
theorem cleanExpiredFiles_preserved {now : Nat} {unlinkOk : String → Bool}
    {idx : Index} {k : String} {m : FileRecord}
    (hget : mapGet idx k = some m) (hfail : unlinkOk m.filePath = false) :
    mapGet (cleanExpiredFiles now unlinkOk idx) k = some m := by
  simp only [cleanExpiredFiles]
  exact cleanFold_preserved unlinkOk _ idx k m hget hfail

/-! Bound on the number of eviction-loop iterations. -/

/-- The eviction loop runs at most one iteration per entry of its working
list, whatever the unlink outcomes: each iteration shifts one candidate off
the list whether or not the unlink succeeded. -/
theorem evictSteps_le (unlinkOk : String → Bool)
    (files : List (String × FileRecord)) (totalSize : Nat) :
    evictSteps unlinkOk files totalSize ≤ files.length := by
  induction files generalizing totalSize with
  | nil => exact Nat.le_refl 0
  | cons f rest ih =>
    by_cases hlt : MAX_STORAGE < totalSize
    · simp only [evictSteps, hlt, if_true, List.length_cons]
      by_cases hok : unlinkOk f.2.filePath
      · simpa [hok] using Nat.succ_le_succ (ih (totalSize - f.2.size))
      · simpa [hok] using Nat.succ_le_succ (ih totalSize)
    · simp [evictSteps, hlt]

/-! Theorems settling the individual claims about the program. -/

/-- Claim C1, counterexample to the claim as stated.  One over-cap record
whose blob unlink fails: the capacity-reaper pass completes, yet the record
remains in the index with aggregate size above the cap.  So the invariant
"sum of sizes ≤ cap or zero records remain" does not hold regardless of
which blob-unlink steps failed. -/
theorem c1_capacity_invariant_counterexample :
    manageStorageCapacity (fun _ => false)
        [("id1", ⟨"big.bin", MAX_STORAGE + 1, "application/zip", 0, "up/big.bin", "big.bin"⟩)] =
      [("id1", ⟨"big.bin", MAX_STORAGE + 1, "application/zip", 0, "up/big.bin", "big.bin"⟩)] ∧
    ¬ (sumSizes
        [("id1", ⟨"big.bin", MAX_STORAGE + 1, "application/zip", 0, "up/big.bin", "big.bin"⟩)] ≤
          MAX_STORAGE ∨
       ([("id1", (⟨"big.bin", MAX_STORAGE + 1, "application/zip", 0, "up/big.bin",
          "big.bin"⟩ : FileRecord))] : Index) = []) := by
  decide

/-- Claim C1, amended: immediately after a capacity-reaper pass in which
every blob unlink succeeds, run on a duplicate-free index, the sum of
`size` over the remaining records is ≤ the 5GB cap or zero records remain. -/
theorem c1_capacity_invariant_all_unlinks_ok (index : Index)
    (hnd : (index.map Prod.fst).Nodup) :
    sumSizes (manageStorageCapacity (fun _ => true) index) ≤ MAX_STORAGE ∨
    manageStorageCapacity (fun _ => true) index = [] := by
  simp only [manageStorageCapacity]
  exact evictLoop_allok _ index _ (sortByUploadTime_perm index)
    (((sortByUploadTime_perm index).map Prod.fst).nodup_iff.mpr hnd) rfl

/-- Claim C1 witness: the amended invariant at a concrete two-record index
whose total exceeds the cap. -/
theorem c1_capacity_invariant_all_unlinks_ok_witness :
    ((([("a", ⟨"x.bin", MAX_STORAGE, "application/zip", 0, "px", "x.bin"⟩),
        ("b", ⟨"y.bin", 2, "application/zip", 1, "py", "y.bin"⟩)] : Index).map Prod.fst).Nodup) ∧
    (sumSizes (manageStorageCapacity (fun _ => true)
        [("a", ⟨"x.bin", MAX_STORAGE, "application/zip", 0, "px", "x.bin"⟩),
         ("b", ⟨"y.bin", 2, "application/zip", 1, "py", "y.bin"⟩)]) ≤ MAX_STORAGE ∨
      manageStorageCapacity (fun _ => true)
        [("a", ⟨"x.bin", MAX_STORAGE, "application/zip", 0, "px", "x.bin"⟩),
         ("b", ⟨"y.bin", 2, "application/zip", 1, "py", "y.bin"⟩)] = []) :=
  ⟨by decide, c1_capacity_invariant_all_unlinks_ok _ (by decide)⟩

/-- Claim C2: for a record past its TTL, the first metadata lookup and the
download route both return Expired and delete the index entry, and every
subsequent lookup on that identifier (at any later clock value) returns
NotFound, not a second Expired. -/
theorem c2_expired_then_not_found (now now₂ : Nat) (diskHas : String → Bool)
    (index : Index) (fileId : String) (m : FileRecord)
    (hget : mapGet index fileId = some m)
    (hexp : TTL < now - m.uploadTime) :
    lookupFile now index fileId = (.expired, mapDelete index fileId) ∧
    downloadFile now diskHas index fileId = (.expired, mapDelete index fileId) ∧
    mapGet (mapDelete index fileId) fileId = none ∧
    lookupFile now₂ (mapDelete index fileId) fileId =
      (.notFound, mapDelete index fileId) := by
  refine ⟨?_, ?_, mapGet_mapDelete_self index fileId, ?_⟩
  · simp [lookupFile, hget, hexp]
  · simp [downloadFile, hget, hexp]
  · simp [lookupFile, mapGet_mapDelete_self index fileId]

/-- Claim C2 witness: a record uploaded at time 0, looked up just past the
24h TTL, then looked up again. -/
theorem c2_expired_then_not_found_witness :
    (mapGet [("f1", ⟨"a.png", 10, "image/png", 0, "p", "a.png"⟩)] "f1" =
        some ⟨"a.png", 10, "image/png", 0, "p", "a.png"⟩ ∧
      TTL < (TTL + 1) -
        (FileRecord.mk "a.png" 10 "image/png" 0 "p" "a.png").uploadTime) ∧
    (lookupFile (TTL + 1) [("f1", ⟨"a.png", 10, "image/png", 0, "p", "a.png"⟩)] "f1" =
        (.expired, mapDelete [("f1", ⟨"a.png", 10, "image/png", 0, "p", "a.png"⟩)] "f1") ∧
      downloadFile (TTL + 1) (fun _ => true)
          [("f1", ⟨"a.png", 10, "image/png", 0, "p", "a.png"⟩)] "f1" =
        (.expired, mapDelete [("f1", ⟨"a.png", 10, "image/png", 0, "p", "a.png"⟩)] "f1") ∧
      mapGet (mapDelete [("f1", ⟨"a.png", 10, "image/png", 0, "p", "a.png"⟩)] "f1") "f1" = none ∧
      lookupFile (TTL + 2)
          (mapDelete [("f1", ⟨"a.png", 10, "image/png", 0, "p", "a.png"⟩)] "f1") "f1" =
        (.notFound, mapDelete [("f1", ⟨"a.png", 10, "image/png", 0, "p", "a.png"⟩)] "f1")) :=
  ⟨⟨by decide, by decide⟩,
   c2_expired_then_not_found (TTL + 1) (TTL + 2) (fun _ => true)
     [("f1", ⟨"a.png", 10, "image/png", 0, "p", "a.png"⟩)] "f1"
     ⟨"a.png", 10, "image/png", 0, "p", "a.png"⟩ (by decide) (by decide)⟩

/-- Claim C3: on an index with pairwise-distinct upload times whose total
exceeds the cap but comes back under it by removing the record with the
minimum `uploadedAt`, a capacity-reaper pass (with the blob unlink
succeeding) removes exactly that oldest record and nothing else.  The
eviction depends only on the stored `uploadTime` values: the reaper takes no
input describing accesses, and `FileRecord` carries no access-time field. -/
theorem c3_oldest_first_single_eviction (index : Index) (id₀ : String) (m₀ : FileRecord)
    (hdist : index.Pairwise (fun p q => p.2.uploadTime ≠ q.2.uploadTime))
    (hmem : (id₀, m₀) ∈ index)
    (hmin : ∀ p ∈ index, m₀.uploadTime ≤ p.2.uploadTime)
    (hover : MAX_STORAGE < sumSizes index)
    (hone : sumSizes index - m₀.size ≤ MAX_STORAGE) :
    manageStorageCapacity (fun _ => true) index = mapDelete index id₀ := by
  have hperm := sortByUploadTime_perm index
  have hsort := sortByUploadTime_sorted index
  simp only [manageStorageCapacity]
  cases hf : sortByUploadTime index with
  | nil =>
    rw [hf] at hperm
    rw [hperm.symm.eq_nil] at hmem
    cases hmem
  | cons f₀ rest =>
    rw [hf] at hperm hsort
    have hstot : sumSizes (f₀ :: rest) = sumSizes index := sumSizes_perm hperm
    have hf₀mem : f₀ ∈ index := hperm.mem_iff.mp (List.mem_cons_self _ _)
    have hm₀files : (id₀, m₀) ∈ f₀ :: rest := hperm.mem_iff.mpr hmem
    have hsortcons := List.sorted_cons.mp hsort
    have heq : f₀ = (id₀, m₀) := by
      by_cases h : f₀ = (id₀, m₀)
      · exact h
      · exfalso
        rcases List.mem_cons.mp hm₀files with h1 | h1
        · exact h h1.symm
        · have hle1 : f₀.2.uploadTime ≤ m₀.uploadTime := hsortcons.1 _ h1
          have hle2 : m₀.uploadTime ≤ f₀.2.uploadTime := hmin f₀ hf₀mem
          have hsymm : Symmetric
              (fun p q : String × FileRecord => p.2.uploadTime ≠ q.2.uploadTime) :=
            fun _ _ hpq => hpq.symm
          have hne : (id₀, m₀).2.uploadTime ≠ f₀.2.uploadTime :=
            List.Pairwise.forall hsymm hdist hmem hf₀mem (fun hh => h hh.symm)
          exact hne (Nat.le_antisymm hle2 hle1)
    subst heq
    have hcond : MAX_STORAGE < sumSizes ((id₀, m₀) :: rest) := by
      rw [hstot]; exact hover
    simp only [evictLoop, hcond, if_true]
    apply evictLoop_stop
    have : sumSizes ((id₀, m₀) :: rest) - (id₀, m₀).2.size =
        sumSizes index - m₀.size := by rw [hstot]
    rw [this]
    exact Nat.not_lt.mpr hone

/-- Claim C3 witness: two records over the cap together; the one with the
smaller `uploadTime` (and not the one listed first) is the one evicted. -/
theorem c3_oldest_first_single_eviction_witness :
    (([("a", ⟨"x.bin", MAX_STORAGE, "application/zip", 5, "px", "x.bin"⟩),
       ("b", ⟨"y.bin", 2, "application/zip", 3, "py", "y.bin"⟩)] : Index).Pairwise
        (fun p q => p.2.uploadTime ≠ q.2.uploadTime) ∧
      ("b", (⟨"y.bin", 2, "application/zip", 3, "py", "y.bin"⟩ : FileRecord)) ∈
        ([("a", ⟨"x.bin", MAX_STORAGE, "application/zip", 5, "px", "x.bin"⟩),
          ("b", ⟨"y.bin", 2, "application/zip", 3, "py", "y.bin"⟩)] : Index) ∧
      (∀ p ∈ ([("a", ⟨"x.bin", MAX_STORAGE, "application/zip", 5, "px", "x.bin"⟩),
          ("b", ⟨"y.bin", 2, "application/zip", 3, "py", "y.bin"⟩)] : Index),
        (FileRecord.mk "y.bin" 2 "application/zip" 3 "py" "y.bin").uploadTime ≤
          p.2.uploadTime) ∧
      MAX_STORAGE < sumSizes
        [("a", ⟨"x.bin", MAX_STORAGE, "application/zip", 5, "px", "x.bin"⟩),
         ("b", ⟨"y.bin", 2, "application/zip", 3, "py", "y.bin"⟩)] ∧
      sumSizes [("a", ⟨"x.bin", MAX_STORAGE, "application/zip", 5, "px", "x.bin"⟩),
         ("b", ⟨"y.bin", 2, "application/zip", 3, "py", "y.bin"⟩)] -
        (FileRecord.mk "y.bin" 2 "application/zip" 3 "py" "y.bin").size ≤ MAX_STORAGE) ∧
    manageStorageCapacity (fun _ => true)
        [("a", ⟨"x.bin", MAX_STORAGE, "application/zip", 5, "px", "x.bin"⟩),
         ("b", ⟨"y.bin", 2, "application/zip", 3, "py", "y.bin"⟩)] =
      mapDelete [("a", ⟨"x.bin", MAX_STORAGE, "application/zip", 5, "px", "x.bin"⟩),
         ("b", ⟨"y.bin", 2, "application/zip", 3, "py", "y.bin"⟩)] "b" :=
  ⟨⟨by decide, by decide, by decide, by decide, by decide⟩,
   c3_oldest_first_single_eviction
     [("a", ⟨"x.bin", MAX_STORAGE, "application/zip", 5, "px", "x.bin"⟩),
      ("b", ⟨"y.bin", 2, "application/zip", 3, "py", "y.bin"⟩)] "b"
     ⟨"y.bin", 2, "application/zip", 3, "py", "y.bin"⟩
     (by decide) (by decide) (by decide) (by decide) (by decide)⟩

/-- Claim C4, counterexample to the claim as stated.  An upload whose
response-time clock reads 1 while the stored `uploadTime` is 0: the upload
response reports expiry `TTL + 1`, while the stored record's
`uploadedAt + 24h` — the value a subsequent lookup reports — is `TTL`.  So
the returned expiry is captured from a fresh clock reading at response
time, not recomputed from `uploadedAt`. -/
theorem c4_upload_expiry_counterexample :
    (uploadHandler 0 1 (fun _ => true) [] "f1" "a.png" 10 "image/png" "p" "a.png").2.expiresAt =
      TTL + 1 ∧
    mapGet (uploadHandler 0 1 (fun _ => true) [] "f1" "a.png" 10 "image/png" "p" "a.png").1 "f1" =
      some ⟨"a.png", 10, "image/png", 0, "p", "a.png"⟩ ∧
    (lookupFile 2 (uploadHandler 0 1 (fun _ => true) [] "f1" "a.png" 10 "image/png" "p" "a.png").1
        "f1").1 = .ok ⟨"f1", "a.png", 10, "image/png", 0, TTL⟩ ∧
    TTL + 1 ≠ 0 + TTL := by
  decide

/-- Claim C4, amended: the upload response's expiry equals the
response-time clock plus 24h — which equals `uploadedAt + 24h` exactly when
no time elapsed between record creation and response — while a lookup's
reported expiry is always recomputed as the stored `uploadTime` plus 24h. -/
theorem c4_expiry_computation (tMeta tResp : Nat) (unlinkOk : String → Bool)
    (index : Index) (fileId originalName : String) (size : Nat)
    (mimetype filePath filename : String)
    (now : Nat) (lidx : Index) (lid : String) (m : FileRecord)
    (hget : mapGet lidx lid = some m)
    (hfresh : ¬ TTL < now - m.uploadTime) :
    (uploadHandler tMeta tResp unlinkOk index fileId originalName size mimetype
        filePath filename).2.expiresAt = tResp + TTL ∧
    (tResp = tMeta →
      (uploadHandler tMeta tResp unlinkOk index fileId originalName size mimetype
          filePath filename).2.expiresAt = tMeta + TTL) ∧
    (lookupFile now lidx lid).1 =
      .ok ⟨lid, m.originalName, m.size, m.mimetype, m.uploadTime, m.uploadTime + TTL⟩ := by
  refine ⟨rfl, fun h => by rw [h] at *; rfl, ?_⟩
  simp [lookupFile, hget, hfresh]

/-- Claim C4 witness: an upload with no clock advance (both readings 7) and
a lookup of an unexpired stored record with `uploadTime` 3. -/
theorem c4_expiry_computation_witness :
    (mapGet [("f1", ⟨"a.png", 10, "image/png", 3, "p", "a.png"⟩)] "f1" =
        some ⟨"a.png", 10, "image/png", 3, "p", "a.png"⟩ ∧
      ¬ TTL < 5 - (FileRecord.mk "a.png" 10 "image/png" 3 "p" "a.png").uploadTime) ∧
    ((uploadHandler 7 7 (fun _ => true) [] "g1" "b.txt" 4 "text/plain" "q" "b.txt").2.expiresAt =
        7 + TTL ∧
      ((7 : Nat) = 7 →
        (uploadHandler 7 7 (fun _ => true) [] "g1" "b.txt" 4 "text/plain" "q"
            "b.txt").2.expiresAt = 7 + TTL) ∧
      (lookupFile 5 [("f1", ⟨"a.png", 10, "image/png", 3, "p", "a.png"⟩)] "f1").1 =
        .ok ⟨"f1", "a.png", 10, "image/png", 3, 3 + TTL⟩) :=
  ⟨⟨by decide, by decide⟩,
   c4_expiry_computation 7 7 (fun _ => true) [] "g1" "b.txt" 4 "text/plain" "q" "b.txt"
     5 [("f1", ⟨"a.png", 10, "image/png", 3, "p", "a.png"⟩)] "f1"
     ⟨"a.png", 10, "image/png", 3, "p", "a.png"⟩ (by decide) (by decide)⟩

/-- Claim C5, counterexample to the claim as stated.  An expired record
whose blob unlink fails: the expiry-reaper pass completes yet the
identifier is still present in the index, because the reaper unlinks the
blob first and deletes the index entry only when the unlink succeeded. -/
theorem c5_reaper_retains_entry_counterexample :
    TTL < (TTL + 1) - (FileRecord.mk "a.png" 10 "image/png" 0 "p" "a.png").uploadTime ∧
    cleanExpiredFiles (TTL + 1) (fun _ => false)
        [("f1", ⟨"a.png", 10, "image/png", 0, "p", "a.png"⟩)] =
      [("f1", ⟨"a.png", 10, "image/png", 0, "p", "a.png"⟩)] ∧
    mapGet (cleanExpiredFiles (TTL + 1) (fun _ => false)
        [("f1", ⟨"a.png", 10, "image/png", 0, "p", "a.png"⟩)]) "f1" =
      some ⟨"a.png", 10, "image/png", 0, "p", "a.png"⟩ := by
  decide

/-- Claim C5, amended: only the lazy-eviction path removes the index entry
first (the entry is gone after the lookup whatever the later unlink does),
while both reapers unlink the blob first and keep the index entry whenever
that unlink fails. -/
theorem c5_delete_ordering (now : Nat) (unlinkOk : String → Bool)
    (index : Index) (fileId : String) (m : FileRecord)
    (hnd : (index.map Prod.fst).Nodup)
    (hget : mapGet index fileId = some m)
    (hfail : unlinkOk m.filePath = false) :
    (TTL < now - m.uploadTime →
      mapGet ((lookupFile now index fileId).2) fileId = none) ∧
    mapGet (cleanExpiredFiles now unlinkOk index) fileId = some m ∧
    mapGet (manageStorageCapacity unlinkOk index) fileId = some m := by
  refine ⟨fun hexp => ?_, cleanExpiredFiles_preserved hget hfail,
    manage_preserved hnd hget hfail⟩
  simp [lookupFile, hget, hexp, mapGet_mapDelete_self]

/-- Claim C5 witness: an expired single-record index with an
always-failing unlink oracle. -/
theorem c5_delete_ordering_witness :
    ((([("f1", ⟨"a.png", 10, "image/png", 0, "p", "a.png"⟩)] : Index).map Prod.fst).Nodup ∧
      mapGet [("f1", ⟨"a.png", 10, "image/png", 0, "p", "a.png"⟩)] "f1" =
        some ⟨"a.png", 10, "image/png", 0, "p", "a.png"⟩ ∧
      (fun _ => false : String → Bool)
        (FileRecord.mk "a.png" 10 "image/png" 0 "p" "a.png").filePath = false) ∧
    ((TTL < (TTL + 1) - (FileRecord.mk "a.png" 10 "image/png" 0 "p" "a.png").uploadTime →
        mapGet ((lookupFile (TTL + 1)
          [("f1", ⟨"a.png", 10, "image/png", 0, "p", "a.png"⟩)] "f1").2) "f1" = none) ∧
      mapGet (cleanExpiredFiles (TTL + 1) (fun _ => false)
          [("f1", ⟨"a.png", 10, "image/png", 0, "p", "a.png"⟩)]) "f1" =
        some ⟨"a.png", 10, "image/png", 0, "p", "a.png"⟩ ∧
      mapGet (manageStorageCapacity (fun _ => false)
          [("f1", ⟨"a.png", 10, "image/png", 0, "p", "a.png"⟩)]) "f1" =
        some ⟨"a.png", 10, "image/png", 0, "p", "a.png"⟩) :=
  ⟨⟨by decide, by decide, by decide⟩,
   c5_delete_ordering (TTL + 1) (fun _ => false)
     [("f1", ⟨"a.png", 10, "image/png", 0, "p", "a.png"⟩)] "f1"
     ⟨"a.png", 10, "image/png", 0, "p", "a.png"⟩ (by decide) (by decide) (by decide)⟩

/-- Claim C6: if the identifier is still present after the upload handler
(including its immediate capacity pass), then the stored record is exactly
the one built from the upload's inputs, and any lookup within the TTL
returns precisely that record's fields (with expiry `uploadTime + 24h`) and
leaves the index unchanged — so repeated lookups keep returning it until
TTL expiry or a capacity eviction removes it. -/
theorem c6_register_lookup_roundtrip (tMeta tResp now : Nat)
    (unlinkOk : String → Bool) (index : Index)
    (fileId originalName : String) (size : Nat)
    (mimetype filePath filename : String) (m : FileRecord)
    (hget : mapGet (uploadHandler tMeta tResp unlinkOk index fileId originalName size
        mimetype filePath filename).1 fileId = some m)
    (hfresh : now - tMeta ≤ TTL) :
    m = ⟨originalName, size, mimetype, tMeta, filePath, filename⟩ ∧
    lookupFile now (uploadHandler tMeta tResp unlinkOk index fileId originalName size
        mimetype filePath filename).1 fileId =
      (.ok ⟨fileId, originalName, size, mimetype, tMeta, tMeta + TTL⟩,
        (uploadHandler tMeta tResp unlinkOk index fileId originalName size
          mimetype filePath filename).1) := by
  have hm : m = ⟨originalName, size, mimetype, tMeta, filePath, filename⟩ := by
    have h1 : mapGet (mapSet index fileId
        ⟨originalName, size, mimetype, tMeta, filePath, filename⟩) fileId = some m :=
      manage_get_some (by simpa [uploadHandler] using hget)
    rw [mapGet_mapSet_self] at h1
    exact (Option.some_inj.mp h1).symm
  have hnotexp : ¬ TTL < now - tMeta := Nat.not_lt.mpr hfresh
  refine ⟨hm, ?_⟩
  simp [lookupFile, hget, hm, hnotexp]

/-- Claim C6 witness: a 10-byte upload at time 3 into an empty store,
looked up at time 5. -/
theorem c6_register_lookup_roundtrip_witness :
    (mapGet (uploadHandler 3 3 (fun _ => true) [] "f1" "a.png" 10 "image/png" "p"
        "a.png").1 "f1" = some ⟨"a.png", 10, "image/png", 3, "p", "a.png"⟩ ∧
      (5 : Nat) - 3 ≤ TTL) ∧
    ((FileRecord.mk "a.png" 10 "image/png" 3 "p" "a.png") =
        ⟨"a.png", 10, "image/png", 3, "p", "a.png"⟩ ∧
      lookupFile 5 (uploadHandler 3 3 (fun _ => true) [] "f1" "a.png" 10 "image/png" "p"
          "a.png").1 "f1" =
        (.ok ⟨"f1", "a.png", 10, "image/png", 3, 3 + TTL⟩,
          (uploadHandler 3 3 (fun _ => true) [] "f1" "a.png" 10 "image/png" "p"
            "a.png").1)) :=
  ⟨⟨by decide, by decide⟩,
   c6_register_lookup_roundtrip 3 3 5 (fun _ => true) [] "f1" "a.png" 10 "image/png"
     "p" "a.png" ⟨"a.png", 10, "image/png", 3, "p", "a.png"⟩ (by decide) (by decide)⟩

/-- Claim C7, counterexample to the claim as stated.  A present, unexpired,
previewable record whose blob is missing on disk: the preview route answers
with the send-failure server error and leaves the stale index entry in
place, so the preview collaborator neither reports the distinct IOError
outcome nor purges the entry. -/
theorem c7_preview_missing_blob_counterexample :
    ¬ TTL < (5 : Nat) - (FileRecord.mk "a.png" 10 "image/png" 0 "p" "a.png").uploadTime ∧
    mapGet [("f1", ⟨"a.png", 10, "image/png", 0, "p", "a.png"⟩)] "f1" =
      some ⟨"a.png", 10, "image/png", 0, "p", "a.png"⟩ ∧
    previewFile 5 (fun _ => false)
        [("f1", ⟨"a.png", 10, "image/png", 0, "p", "a.png"⟩)] "f1" =
      (.sendFailed, [("f1", ⟨"a.png", 10, "image/png", 0, "p", "a.png"⟩)]) := by
  decide

/-- Claim C7, amended: for a present, unexpired record whose blob is
missing, the download route returns the distinct not-found-on-disk outcome
and purges the stale index entry, while the preview route only fails at
send time with a server error and does not purge the entry. -/
theorem c7_missing_blob_behavior (now : Nat) (diskHas : String → Bool)
    (index : Index) (fileId : String) (m : FileRecord)
    (hget : mapGet index fileId = some m)
    (hfresh : ¬ TTL < now - m.uploadTime)
    (hmiss : diskHas m.filePath = false) :
    downloadFile now diskHas index fileId = (.notOnDisk, mapDelete index fileId) ∧
    mapGet (mapDelete index fileId) fileId = none ∧
    (isPreviewable m.mimetype = true →
      previewFile now diskHas index fileId = (.sendFailed, index)) := by
  refine ⟨?_, mapGet_mapDelete_self index fileId, fun hprev => ?_⟩
  · simp [downloadFile, hget, hfresh, hmiss]
  · simp [previewFile, hget, hfresh, hprev, hmiss]

/-- Claim C7 witness: a present unexpired image record with its blob
reported missing by the disk oracle. -/
theorem c7_missing_blob_behavior_witness :
    (mapGet [("f1", ⟨"a.png", 10, "image/png", 0, "p", "a.png"⟩)] "f1" =
        some ⟨"a.png", 10, "image/png", 0, "p", "a.png"⟩ ∧
      ¬ TTL < (5 : Nat) - (FileRecord.mk "a.png" 10 "image/png" 0 "p" "a.png").uploadTime ∧
      (fun _ => false : String → Bool)
        (FileRecord.mk "a.png" 10 "image/png" 0 "p" "a.png").filePath = false) ∧
    (downloadFile 5 (fun _ => false)
        [("f1", ⟨"a.png", 10, "image/png", 0, "p", "a.png"⟩)] "f1" =
        (.notOnDisk, mapDelete [("f1", ⟨"a.png", 10, "image/png", 0, "p", "a.png"⟩)] "f1") ∧
      mapGet (mapDelete [("f1", ⟨"a.png", 10, "image/png", 0, "p", "a.png"⟩)] "f1") "f1" = none ∧
      (isPreviewable (FileRecord.mk "a.png" 10 "image/png" 0 "p" "a.png").mimetype = true →
        previewFile 5 (fun _ => false)
          [("f1", ⟨"a.png", 10, "image/png", 0, "p", "a.png"⟩)] "f1" =
          (.sendFailed, [("f1", ⟨"a.png", 10, "image/png", 0, "p", "a.png"⟩)]))) :=
  ⟨⟨by decide, by decide, by decide⟩,
   c7_missing_blob_behavior 5 (fun _ => false)
     [("f1", ⟨"a.png", 10, "image/png", 0, "p", "a.png"⟩)] "f1"
     ⟨"a.png", 10, "image/png", 0, "p", "a.png"⟩ (by decide) (by decide) (by decide)⟩

/-- Claim C8, evaluation at the failing input.  A record one millisecond
past its TTL: the embed route still renders the page with the record's
metadata and leaves the index unchanged, whereas the lookup operation on
the same state returns Expired and evicts the record — so the embed route
does not resolve the identifier through the lookup's expiry semantics. -/
theorem c8_embed_renders_expired_record :
    TTL < (TTL + 1) - (FileRecord.mk "a.png" 10 "image/png" 0 "p" "a.png").uploadTime ∧
    embedPage [("f1", ⟨"a.png", 10, "image/png", 0, "p", "a.png"⟩)] "f1" =
      (.page ⟨"a.png", 10, "image/png", 0, "p", "a.png"⟩ true,
        [("f1", ⟨"a.png", 10, "image/png", 0, "p", "a.png"⟩)]) ∧
    lookupFile (TTL + 1) [("f1", ⟨"a.png", 10, "image/png", 0, "p", "a.png"⟩)] "f1" =
      (.expired, []) := by
  decide

/-- Claim C9: a present, unexpired record whose mime type is outside the
allow-list prefixes gets the client-error rejection (never the blob), and
the mime check runs only after existence and expiry are resolved: an
expired record yields Expired and an unknown identifier yields NotFound,
whatever the mime type. -/
theorem c9_preview_mime_allowlist (now : Nat) (diskHas : String → Bool)
    (index : Index) (fileId other : String) (m : FileRecord)
    (hget : mapGet index fileId = some m) :
    (¬ TTL < now - m.uploadTime → isPreviewable m.mimetype = false →
      previewFile now diskHas index fileId = (.notPreviewable, index)) ∧
    (TTL < now - m.uploadTime →
      previewFile now diskHas index fileId = (.expired, mapDelete index fileId)) ∧
    (mapGet index other = none →
      previewFile now diskHas index other = (.notFound, index)) := by
  refine ⟨fun hfresh hmime => ?_, fun hexp => ?_, fun hnone => ?_⟩
  · simp [previewFile, hget, hfresh, hmime]
  · simp [previewFile, hget, hexp]
  · simp [previewFile, hnone]

/-- Claim C9 witness: the concrete scenario of an `application/zip` record
(outside every allow-list prefix) previewed while present and unexpired. -/
theorem c9_preview_mime_allowlist_witness :
    (mapGet [("f1", ⟨"a.zip", 10, "application/zip", 0, "p", "a.zip"⟩)] "f1" =
        some ⟨"a.zip", 10, "application/zip", 0, "p", "a.zip"⟩) ∧
    ((¬ TTL < (5 : Nat) - (FileRecord.mk "a.zip" 10 "application/zip" 0 "p" "a.zip").uploadTime →
        isPreviewable (FileRecord.mk "a.zip" 10 "application/zip" 0 "p" "a.zip").mimetype = false →
        previewFile 5 (fun _ => true)
          [("f1", ⟨"a.zip", 10, "application/zip", 0, "p", "a.zip"⟩)] "f1" =
          (.notPreviewable, [("f1", ⟨"a.zip", 10, "application/zip", 0, "p", "a.zip"⟩)])) ∧
      (TTL < (5 : Nat) - (FileRecord.mk "a.zip" 10 "application/zip" 0 "p" "a.zip").uploadTime →
        previewFile 5 (fun _ => true)
          [("f1", ⟨"a.zip", 10, "application/zip", 0, "p", "a.zip"⟩)] "f1" =
          (.expired, mapDelete [("f1", ⟨"a.zip", 10, "application/zip", 0, "p", "a.zip"⟩)] "f1")) ∧
      (mapGet [("f1", ⟨"a.zip", 10, "application/zip", 0, "p", "a.zip"⟩)] "nope" = none →
        previewFile 5 (fun _ => true)
          [("f1", ⟨"a.zip", 10, "application/zip", 0, "p", "a.zip"⟩)] "nope" =
          (.notFound, [("f1", ⟨"a.zip", 10, "application/zip", 0, "p", "a.zip"⟩)]))) :=
  ⟨by decide,
   c9_preview_mime_allowlist 5 (fun _ => true)
     [("f1", ⟨"a.zip", 10, "application/zip", 0, "p", "a.zip"⟩)] "f1" "nope"
     ⟨"a.zip", 10, "application/zip", 0, "p", "a.zip"⟩ (by decide)⟩

/-- Claim C10: a capacity-reaper pass terminates for every index and every
outcome of the per-record blob-unlink steps: the eviction loop executes at
most as many iterations as there are records in the index, since each
iteration shifts one candidate off the working list whether or not the
unlink succeeded. -/
theorem c10_capacity_pass_iteration_bound (unlinkOk : String → Bool) (index : Index) :
    evictSteps unlinkOk (sortByUploadTime index) (sumSizes (sortByUploadTime index)) ≤
      index.length := by
  calc evictSteps unlinkOk (sortByUploadTime index) (sumSizes (sortByUploadTime index))
      ≤ (sortByUploadTime index).length := evictSteps_le _ _ _
    _ = index.length := (sortByUploadTime_perm index).length_eq

end CosmicUploads
